import Mathlib

/-!
Verification of the merge-and-classify pipeline of the stock-news analyzer
(`main.py` / `StockDataFetcher.py`).

The Python code is shallowly embedded as executable Lean definitions:

* Excel cell values that matter to the pipeline (the `id` column) are either
  integers or strings; Python truthiness on them is modelled by `PyVal.truthy`.
* The fetched news sequence (`StockDataFetcher.fetch_all_news`) is modelled
  as an input list of `NewsItem`; reading/writing the spreadsheet is modelled
  as an `Option (List Row)` (absent file vs. its contents).
* `datetime.fromisoformat` + `strftime` are modelled at whole-second and
  millisecond/microsecond fractional precision with an optional UTC offset
  (the forms accepted by CPython 3.10's `fromisoformat` after the code's
  `replace of Z with +00:00`), printing with zero padding.
* Python string comparison (used by `sort_values`) is modelled by
  lexicographic comparison of the code points; `keyword in title` is
  modelled by `strContains`.
-/

/-- A spreadsheet / JSON scalar as used in the `id` column: an integer or a
string. -/
inductive PyVal where
  | int (n : Int)
  | str (s : String)
deriving DecidableEq

/-- Python truthiness of a `PyVal`: `0` and the empty string are falsy. -/
def PyVal.truthy : PyVal → Bool
  | .int n => n != 0
  | .str s => s != ""

/-- A row of the persisted dataset `save_db_001.xlsx`, columns in the fixed
order `id, title, content, created_at, tag_names` (`tag_names` already
serialized to one text cell). -/
structure Row where
  id : PyVal
  title : String
  content : String
  created_at : String
  tag_names : String
deriving DecidableEq

/-- A raw news record produced by the fetcher (`tag_names` kept as its
serialized text form, which the merge engine treats opaquely). -/
structure NewsItem where
  id : PyVal
  title : String
  content : String
  created_at : String
  tag_names : String
deriving DecidableEq

/-! ## Python string primitives -/

/-- Lexicographic less-or-equal on code-point lists; models Python string
comparison used by `pandas.sort_values` on a string column. -/
def charListLe : List Char → List Char → Bool
  | [], _ => true
  | _ :: _, [] => false
  | a :: as, b :: bs =>
    if a < b then true
    else if b < a then false
    else charListLe as bs

/-- Python `a <= b` on strings. -/
def strle (a b : String) : Bool := charListLe a.data b.data

/-- Python `a < b` on strings (total order: `a < b` iff not `b <= a`). -/
def strlt (a b : String) : Bool := !(charListLe b.data a.data)

/-- Does `needle` occur as a contiguous sublist of `hay`? -/
def subList (needle : List Char) : List Char → Bool
  | [] => needle.isEmpty
  | c :: rest => needle.isPrefixOf (c :: rest) || subList needle rest

/-- Python `needle in hay` on strings (substring containment). -/
def strContains (hay needle : String) : Bool := subList needle.data hay.data

/-! ## The timestamp formatter `format_created_at` -/

/-- The date/time components produced by `datetime.fromisoformat` that are
observable through `strftime` with the year-month-day hour-minute-second
pattern (the zone offset is parsed but not printed). -/
structure DateTime where
  year : Nat
  month : Nat
  day : Nat
  hour : Nat
  minute : Nat
  second : Nat
deriving DecidableEq

/-- Numeric value of a digit character. -/
def digitVal (c : Char) : Nat := c.toNat - 48

/-- Two-digit decimal composition. -/
def compose2 (a b : Char) : Nat := digitVal a * 10 + digitVal b

/-- Four-digit decimal composition. -/
def compose4 (a b c d : Char) : Nat :=
  digitVal a * 1000 + digitVal b * 100 + digitVal c * 10 + digitVal d

/-- Days in a month, Gregorian calendar (`fromisoformat` rejects
out-of-range days). -/
def daysInMonth (y m : Nat) : Nat :=
  if m = 2 then
    if (y % 4 = 0 && y % 100 != 0) || y % 400 = 0 then 29 else 28
  else if m = 4 || m = 6 || m = 9 || m = 11 then 30 else 31

/-- Component range checks performed by `datetime.fromisoformat`. -/
def rangesOk (y mo d h mi se : Nat) : Bool :=
  1 ≤ y && 1 ≤ mo && mo ≤ 12 && 1 ≤ d && d ≤ daysInMonth y mo &&
  h ≤ 23 && mi ≤ 59 && se ≤ 59

/-- A trailing UTC-offset suffix acceptable to `fromisoformat`: absent, or a
sign followed by `hh` colon `mm` in range. -/
def offsetOk : List Char → Bool
  | [] => true
  | [sg, a, b, ':', c, d] =>
    (sg == '+' || sg == '-') && [a, b, c, d].all Char.isDigit &&
    compose2 a b ≤ 23 && compose2 c d ≤ 59
  | _ => false

/-- The part after the seconds: an optional fractional part of exactly three
or six digits, then an optional offset. -/
def suffixOk : List Char → Bool
  | '.' :: a :: b :: c :: rest =>
    [a, b, c].all Char.isDigit &&
    (match rest with
     | d :: e :: f :: rest2 =>
       if [d, e, f].all Char.isDigit then offsetOk rest2 else offsetOk rest
     | _ => offsetOk rest)
  | rest => offsetOk rest

/-- Model of `datetime.fromisoformat` on the forms reachable from the news
feed: a full date, the letter T, a full time, optional fraction, optional
offset.  Returns the printable components, or failure (a Python
ValueError). -/
def parseIso (cs : List Char) : Option DateTime :=
  match cs with
  | y1 :: y2 :: y3 :: y4 :: '-' :: mo1 :: mo2 :: '-' :: d1 :: d2 :: 'T' ::
    h1 :: h2 :: ':' :: mi1 :: mi2 :: ':' :: se1 :: se2 :: rest =>
    if [y1, y2, y3, y4, mo1, mo2, d1, d2, h1, h2, mi1, mi2, se1, se2].all Char.isDigit
        && suffixOk rest then
      if rangesOk (compose4 y1 y2 y3 y4) (compose2 mo1 mo2) (compose2 d1 d2)
          (compose2 h1 h2) (compose2 mi1 mi2) (compose2 se1 se2) then
        some ⟨compose4 y1 y2 y3 y4, compose2 mo1 mo2, compose2 d1 d2,
              compose2 h1 h2, compose2 mi1 mi2, compose2 se1 se2⟩
      else none
    else none
  | _ => none

/-- Zero-padded two-digit print (`strftime` month/day/hour/minute/second
fields; the parser above only produces values below 100). -/
def pad2 (n : Nat) : String :=
  String.mk [Char.ofNat (48 + n / 10 % 10), Char.ofNat (48 + n % 10)]

/-- Zero-padded four-digit print (`strftime` year field; the parser above
only produces years of exactly four digits). -/
def pad4 (n : Nat) : String :=
  String.mk [Char.ofNat (48 + n / 1000 % 10), Char.ofNat (48 + n / 100 % 10),
             Char.ofNat (48 + n / 10 % 10), Char.ofNat (48 + n % 10)]

/-- `strftime` with the canonical year.month.day hour:minute:second
pattern. -/
def fmtCanonical (dt : DateTime) : String :=
  pad4 dt.year ++ "." ++ pad2 dt.month ++ "." ++ pad2 dt.day ++ " " ++
  pad2 dt.hour ++ ":" ++ pad2 dt.minute ++ ":" ++ pad2 dt.second

/-- Python `s.replace` of the letter Z by the six characters plus-zero-zero
colon-zero-zero, on code-point lists. -/
def replaceZ : List Char → List Char
  | [] => []
  | c :: rest =>
    if c == 'Z' then '+' :: '0' :: '0' :: ':' :: '0' :: '0' :: replaceZ rest
    else c :: replaceZ rest

/-- Model of `format_created_at` from `main.py`: empty input gives the empty
string; an input containing the letter T is parsed as ISO (after replacing Z
with an explicit zero offset) and reprinted canonically, falling back to the
raw value when parsing fails; anything else is returned unchanged. -/
def format_created_at (s : String) : String :=
  if s.data.isEmpty then ""
  else if s.data.any (fun c => c == 'T') then
    match parseIso (replaceZ s.data) with
    | some dt => fmtCanonical dt
    | none => s
  else s

/-! ## The incremental merge engine `update_save_db_xlsx` -/

/-- Outcome of a merge run, mirroring the three exits of
`update_save_db_xlsx`: up to date (no new items, boundary id found), nothing
retrieved (no new items, boundary never found), or a rewritten file. -/
inductive MergeOutcome where
  | upToDate
  | noItems
  | saved
deriving DecidableEq

/-- Step 1 of the merge: the id of the first row of the existing file, when
the file exists and is non-empty. -/
def latestOf : Option (List Row) → Option PyVal
  | some (r :: _) => some r.id
  | _ => none

/-- The stop test of the collection loop: Python's
truthiness-of-latest-and-equality conjunction. -/
def stopAt (latest : Option PyVal) (i : PyVal) : Bool :=
  match latest with
  | some l => l.truthy && i == l
  | none => false

/-- Conversion of a fetched item into a dataset row, normalizing the
timestamp (step 2 of the merge). -/
def toRow (n : NewsItem) : Row :=
  { id := n.id, title := n.title, content := n.content,
    created_at := format_created_at n.created_at, tag_names := n.tag_names }

/-- The collection loop of `update_save_db_xlsx` (steps 2-3): consume the
fetch sequence in order, stopping as soon as the stop test fires; returns
the collected new rows and the boundary-found flag. -/
def collectNew (latest : Option PyVal) : List NewsItem → List Row × Bool
  | [] => ([], false)
  | n :: rest =>
    if stopAt latest n.id then ([], true)
    else
      let r := collectNew latest rest
      (toRow n :: r.1, r.2)

/-- Step 5 of the merge: the new rows are put above the existing rows, but
only when the file exists and the captured latest id is truthy; otherwise
the new rows alone form the combined data. -/
def combineRows (prior : Option (List Row)) (newRows : List Row) : List Row :=
  match prior with
  | none => newRows
  | some rows =>
    match latestOf (some rows) with
    | some l => if l.truthy then newRows ++ rows else newRows
    | none => newRows

/-- The combined data frame built by a merge run. -/
def combinedOf (prior : Option (List Row)) (fetch : List NewsItem) : List Row :=
  combineRows prior (collectNew (latestOf prior) fetch).1

/-- The canonical-format test applied to the first row before the migration
pass: contains a period, contains a colon, and is exactly 19 characters. -/
def canonCheck (s : String) : Bool :=
  s.data.contains '.' && s.data.contains ':' && s.data.length == 19

/-- Step 6 of the merge: if the first row's timestamp passes the canonical
test nothing is converted, otherwise `format_created_at` is applied to every
row's timestamp. -/
def migrateRows : List Row → List Row
  | [] => []
  | c :: cs =>
    if canonCheck c.created_at then c :: cs
    else (c :: cs).map (fun r => { r with created_at := format_created_at r.created_at })

/-- Insertion step of the descending sort on the timestamp column. -/
def insertDesc (r : Row) : List Row → List Row
  | [] => [r]
  | x :: xs =>
    if strlt r.created_at x.created_at then x :: insertDesc r xs
    else r :: x :: xs

/-- `sort_values` by the timestamp column, descending (step 6), as an
insertion sort.  The code's `sort_values` runs pandas' default quicksort,
which is not stable, so the order of rows with equal timestamps is not
guaranteed by the program; accordingly no theorem below depends on the
order of equal keys — the sort invariant is insensitive to tie order, and
the idempotence theorem requires the first fetched item's timestamp to be
strictly maximal. -/
def sortDesc : List Row → List Row
  | [] => []
  | x :: xs => insertDesc x (sortDesc xs)

/-- Result of one run of `update_save_db_xlsx`: the collected new rows, the
boundary flag, the reported outcome, the state of the dataset file after the
run, and the rows written by the run (if any). -/
structure MergeResult where
  newRows : List Row
  found : Bool
  outcome : MergeOutcome
  file : Option (List Row)
  written : Option (List Row)
deriving DecidableEq

/-- Model of `update_save_db_xlsx`: `prior` is the dataset file before the
run (`none` when absent), `fetch` the sequence produced by
`fetch_all_news`.  When no new rows are collected the function returns
before writing; otherwise the combined rows are migrated, sorted descending
by timestamp and written back. -/
def update_save_db_xlsx (prior : Option (List Row)) (fetch : List NewsItem) :
    MergeResult :=
  let res := collectNew (latestOf prior) fetch
  if res.1.isEmpty then
    { newRows := res.1, found := res.2,
      outcome := if res.2 then .upToDate else .noItems,
      file := prior, written := none }
  else
    let out := sortDesc (migrateRows (combinedOf prior fetch))
    { newRows := res.1, found := res.2, outcome := .saved,
      file := some out, written := some out }

/-- No two rows share an id. -/
def noDupIds : List Row → Bool
  | [] => true
  | r :: rs => !(rs.any (fun x => x.id == r.id)) && noDupIds rs

/-- Descending (non-increasing) order of the timestamp column across
consecutive rows. -/
def sortedDescCheck : List Row → Bool
  | [] => true
  | [_] => true
  | a :: b :: t => strle b.created_at a.created_at && sortedDescCheck (b :: t)

/-- The shape year.month.day hour:minute:second: nineteen characters, digits
at the digit positions, periods, colons and a space at the separator
positions. -/
def canonicalShape (s : String) : Bool :=
  match s.data with
  | [y1, y2, y3, y4, p1, mo1, mo2, p2, d1, d2, sp, h1, h2, c1, mi1, mi2, c2, se1, se2] =>
    [y1, y2, y3, y4, mo1, mo2, d1, d2, h1, h2, mi1, mi2, se1, se2].all Char.isDigit &&
    p1 == '.' && p2 == '.' && sp == ' ' && c1 == ':' && c2 == ':'
  | _ => false

/-- A trailing Z, or an explicit in-range offset (required, unlike
`offsetOk`). -/
def zTail : List Char → Bool
  | ['Z'] => true
  | [sg, a, b, ':', c, d] =>
    (sg == '+' || sg == '-') && [a, b, c, d].all Char.isDigit &&
    compose2 a b ≤ 23 && compose2 c d ≤ 59
  | _ => false

/-- After the seconds of an ISO timestamp: an optional fraction of exactly
three or six digits, then a mandatory Z or numeric offset. -/
def zSuffix : List Char → Bool
  | '.' :: a :: b :: c :: rest =>
    [a, b, c].all Char.isDigit &&
    (match rest with
     | d :: e :: f :: rest2 =>
       if [d, e, f].all Char.isDigit then zTail rest2 else zTail rest
     | _ => zTail rest)
  | rest => zTail rest

/-- A valid ISO-8601 timestamp with a T separator and a Z or numeric offset
suffix (whole-second or three/six-digit fractional precision). -/
def isIso8601Z (s : String) : Bool :=
  match s.data with
  | y1 :: y2 :: y3 :: y4 :: '-' :: mo1 :: mo2 :: '-' :: d1 :: d2 :: 'T' ::
    h1 :: h2 :: ':' :: mi1 :: mi2 :: ':' :: se1 :: se2 :: rest =>
    [y1, y2, y3, y4, mo1, mo2, d1, d2, h1, h2, mi1, mi2, se1, se2].all Char.isDigit &&
    rangesOk (compose4 y1 y2 y3 y4) (compose2 mo1 mo2) (compose2 d1 d2)
      (compose2 h1 h2) (compose2 mi1 mi2) (compose2 se1 se2) &&
    zSuffix rest
  | _ => false

/-! ## Classifier and linker -/

/-- A brokerage/bank with its alternate surface forms, as hardcoded in
`get_bank`. -/
structure Bank where
  name : String
  nickNames : List String
deriving DecidableEq

/-- The hardcoded bank list of `get_bank` (order preserved; first match
wins). -/
def banks : List Bank :=
  [⟨"테러다인", ["테러다인"]⟩,
   ⟨"셀레스티카", ["셀레스티카", "세레스티카"]⟩,
   ⟨"미즈호", ["미즈호", "미즈호"]⟩,
   ⟨"Melius", ["Melius", "멜리어스"]⟩,
   ⟨"Susquehanna", ["Susquehanna", "스쿼시하난"]⟩,
   ⟨"Stephens", ["Stephens", "스테펜스"]⟩,
   ⟨"오펜하이머", ["오펜하이머", "오펜하이머"]⟩,
   ⟨"뱅크오브아메리카", ["뱅크오브아메리카", "뱅크오브아메리카"]⟩,
   ⟨"BITG", ["BITG", "BITG"]⟩,
   ⟨"KGI", ["KGI", "KGI"]⟩,
   ⟨"골드만삭스", ["골드만삭스", "골드만삭스"]⟩,
   ⟨"JP모건", ["JP모건", "JP모건"]⟩,
   ⟨"모건스탠리", ["모건스탠리", "모건스탠리"]⟩,
   ⟨"RBC", ["RBC", "RBC"]⟩,
   ⟨"키방크", ["키방크", "KeyBanc", "KeyBnac"]⟩,
   ⟨"바클레이스", ["바클레이스", "바클레이즈즈"]⟩,
   ⟨"에버코어", ["에버코어", "에버코어"]⟩,
   ⟨"CIBC", ["CIBC", "CIBC"]⟩,
   ⟨"제프리스", ["제프리스", "제프리스", "제피리스", "Jefferies"]⟩,
   ⟨"William", ["William"]⟩,
   ⟨"Neil", ["Neil"]⟩,
   ⟨"씨티", ["씨티", "Citi"]⟩,
   ⟨"씨트론", ["씨트론"]⟩,
   ⟨"Cantor", ["Cantor", "Cantor"]⟩,
   ⟨"MoffettNathanson", ["MoffettNathanson"]⟩,
   ⟨"TD", ["TD"]⟩,
   ⟨"Cowen", ["Cowen"]⟩,
   ⟨"Canaccord", ["Canaccord"]⟩,
   ⟨"HSBC", ["HSBC"]⟩,
   ⟨"BMO", ["BMO"]⟩,
   ⟨"Berenberg", ["Berenberg"]⟩,
   ⟨"Baird", ["Baird"]⟩,
   ⟨"Stifel", ["Stifel"]⟩,
   ⟨"구겐하임", ["구겐하임"]⟩,
   ⟨"DZ", ["DZ"]⟩,
   ⟨"Rothchild&Co", ["Rothchild&Co"]⟩,
   ⟨"UBS", ["UBS"]⟩,
   ⟨"도이치방크", ["도이치방크", "도이체방크"]⟩,
   ⟨"HC", ["HC"]⟩,
   ⟨"Wainwright", ["Wainwright"]⟩,
   ⟨"스코샤방크", ["스코샤방크"]⟩,
   ⟨"KBW", ["KBW"]⟩,
   ⟨"Loop", ["Loop"]⟩,
   ⟨"Capital", ["Capital", "Capital"]⟩,
   ⟨"Arete", ["Arete"]⟩,
   ⟨"Ascendiant", ["Ascendiant"]⟩,
   ⟨"Wolfe", ["Wolfe"]⟩,
   ⟨"BTIG", ["BTIG"]⟩,
   ⟨"웰스파고", ["웰스파고"]⟩,
   ⟨"벤치마크", ["벤치마크", "Benchmark"]⟩,
   ⟨"Needhma", ["Needhma"]⟩,
   ⟨"Seaport Global", ["Seaport Global"]⟩,
   ⟨"Needham", ["Needham"]⟩,
   ⟨"Wedbush", ["Wedbush", "웨드부쉬"]⟩,
   ⟨"BNP파리바스", ["BNP파리바스"]⟩,
   ⟨"Truist", ["Truist"]⟩,
   ⟨"Cannacord", ["Cannacord"]⟩,
   ⟨"Citizens", ["Citizens"]⟩,
   ⟨"Argus", ["Argus"]⟩,
   ⟨"파이퍼샌들러", ["파이퍼샌들러", "Piper Sandler"]⟩,
   ⟨"Rosenblatt", ["Rosenblatt"]⟩,
   ⟨"번스타인", ["번스타인", "번스타인"]⟩,
   ⟨"Leerink", ["Leerink"]⟩,
   ⟨"Craig - Hallum", ["Craig - Hallum"]⟩,
   ⟨"B.Riley", ["B.Riley", "B Riley"]⟩,
   ⟨"DA Davidson", ["DA Davidson", "DA Davidson"]⟩,
   ⟨"B Riley", ["B Riley", "B Riley"]⟩,
   ⟨"레드번", ["RedBurn", "레드번"]⟩]

/-- Python `str.lower` (ASCII case folding; the Korean surface forms are
unaffected, matching CPython on this data). -/
def pyLower (s : String) : String := String.mk (s.data.map Char.toLower)

/-- Model of `get_bank`: first bank in list order one of whose trimmed,
lowercased nicknames occurs in the trimmed, lowercased keyword; a sentinel
empty bank when none matches. -/
def get_bank (keyword : String) : Bank :=
  match banks.find? (fun bank =>
    bank.nickNames.any (fun n =>
      strContains (pyLower keyword.trim) (pyLower n.trim))) with
  | some b => b
  | none => ⟨"", [""]⟩

/-- The upgrade keyword list of `thinking_opinion`. -/
def opinion_up : List String :=
  ["상향", "매수", "투자 의견", "투자의견", "Buy", "목표가 상향", "중립→매수", "매도→중립"]

/-- The downgrade keyword list of `thinking_opinion`. -/
def opinion_down : List String :=
  ["하향", "매도", "Sell", "목표가 하향", "중립→매도", "매수->중립"]

/-- Does the title contain an upgrade keyword? -/
def upHit (title : String) : Bool := opinion_up.any (fun k => strContains title k)

/-- Does the title contain a downgrade keyword? -/
def downHit (title : String) : Bool := opinion_down.any (fun k => strContains title k)

/-- Model of `thinking_opinion`: upgrade keywords first, then downgrade
keywords, else neutral. -/
def thinking_opinion (title : String) : String :=
  if upHit title then "상향"
  else if downHit title then "하향"
  else "중립"

/-- A derived opinion record. -/
structure Opinion where
  symbol : String
  opinion : String
  opinion_date : String
  bank : String
  news_id : PyVal
deriving DecidableEq

/-- A ticker with its run-scoped opinion accumulator. -/
structure Ticker where
  symbol : String
  opinions : List Opinion
deriving DecidableEq

/-- The pre-filter keyword list of `filter_opinion_news`. -/
def opinion_keywords : List String :=
  ["목표가 상향", "목표가 하향", "투자 의견", "투자의견", "목표가", "매수의견", "매도의견",
   "매수 의견", "매도 의견", "중립→매수", "매도→중립", "중립→매도", "매수->중립", "Buy", "Sell"]

/-- Does the title contain one of the pre-filter keywords? -/
def opinionKeywordHit (title : String) : Bool :=
  opinion_keywords.any (fun k => strContains title k)

/-- A regex word character, ASCII approximation (the ticker symbols matched
by the code are ASCII alphanumeric). -/
def isWordChar (c : Char) : Bool := c.isAlphanum || c == '_'

/-- Occurrence of `sym` at position `i` of `title`. -/
def occursAt (sym title : List Char) (i : Nat) : Bool :=
  sym.isPrefixOf (title.drop i)

/-- Occurrence at position `i` delimited by word boundaries on both sides. -/
def boundedAt (sym title : List Char) (i : Nat) : Bool :=
  occursAt sym title i &&
  (i == 0 || !isWordChar (title.getD (i - 1) ' ')) &&
  (i + sym.length == title.length || !isWordChar (title.getD (i + sym.length) ' '))

/-- Model of the word-boundary regex search for an escaped ticker symbol in
a title. -/
def wordTokenMatch (sym title : String) : Bool :=
  (List.range (title.data.length + 1)).any (boundedAt sym.data title.data)

/-- The opinion record built for a matched ticker and news row. -/
def mkOpinion (sym : String) (r : Row) : Opinion :=
  { symbol := sym, opinion := thinking_opinion r.title,
    opinion_date := r.created_at, bank := (get_bank r.title).name,
    news_id := r.id }

/-- The inner ticker loop of `filter_opinion_news`: scan the tickers in
order, append one opinion to the first whose symbol occurs word-bounded in
the title, stop there; returns the updated tickers and the number of
opinions created (zero or one). -/
def attachOpinion (row : Row) : List Ticker → List Ticker × Nat
  | [] => ([], 0)
  | t :: ts =>
    if wordTokenMatch t.symbol row.title then
      ({ t with opinions := t.opinions ++ [mkOpinion t.symbol row] } :: ts, 1)
    else
      let r := attachOpinion row ts
      (t :: r.1, r.2)

/-- Result of `filter_opinion_news`: updated tickers, number of opinions
created, and the rows written to the secondary file (none when the filter
matched nothing, since the function returns before writing). -/
structure LinkResult where
  tickers : List Ticker
  count : Nat
  written : Option (List Row)
deriving DecidableEq

/-- Model of `filter_opinion_news`: pre-filter the dataset rows by the
opinion keywords, link each surviving row to at most one ticker, and
overwrite the secondary file with exactly the filtered rows.  The NYSE
bootstrap of an empty ticker list is external data and is modelled by the
`tickers` argument. -/
def filter_opinion_news (rows : List Row) (tickers : List Ticker) : LinkResult :=
  let filtered := rows.filter (fun r => opinionKeywordHit r.title)
  let res := filtered.foldl
    (fun (acc : List Ticker × Nat) r =>
      let p := attachOpinion r acc.1
      (p.1, acc.2 + p.2))
    (tickers, 0)
  { tickers := res.1, count := res.2,
    written := if filtered.isEmpty then none else some filtered }

/-- Result of a call to `filter_bank_news`: the outcome of the call and the
state of the two dataset files afterwards. -/
structure BankNewsResult where
  outcome : Except String Unit
  saveFile : Option (List Row)
  opinionFile : Option (List Row)

/-- Model of `filter_bank_news`: its first statement evaluates `get_bank`
with no argument, but `get_bank` requires its keyword parameter, so the
call raises a TypeError outside the try block, before either dataset file
is read, filtered or written; the exception propagates to the caller, no
write occurs and both files are left untouched.  (The function is dead
code: its only call site in `main` is commented out.) -/
def filter_bank_news (saveFile opinionFile : Option (List Row)) : BankNewsResult :=
  { outcome := Except.error "TypeError: get_bank missing 1 required positional argument",
    saveFile := saveFile, opinionFile := opinionFile }

/-! ## Order and sorting lemmas -/

theorem charListLe_refl (l : List Char) : charListLe l l = true := by
  induction l with
  | nil => rfl
  | cons a as ih =>
    unfold charListLe
    rw [if_neg (lt_irrefl a), if_neg (lt_irrefl a)]
    exact ih

theorem charListLe_total (a b : List Char) (h : charListLe a b = false) :
    charListLe b a = true := by
  induction a generalizing b with
  | nil => simp [charListLe] at h
  | cons x xs ih =>
    cases b with
    | nil => rfl
    | cons y ys =>
      unfold charListLe at h ⊢
      by_cases hxy : x < y
      · rw [if_pos hxy] at h; exact absurd h (by simp)
      · rw [if_neg hxy] at h
        by_cases hyx : y < x
        · rw [if_pos hyx]
        · rw [if_neg hyx] at h
          rw [if_neg hyx, if_neg hxy]
          exact ih ys h

theorem strle_of_strlt_false (a b : String) (h : strlt a b = false) :
    strle b a = true := by
  unfold strlt at h
  unfold strle
  cases hc : charListLe b.data a.data with
  | true => rfl
  | false => rw [hc] at h; exact absurd h (by simp)

theorem strle_of_strlt (a b : String) (h : strlt a b = true) :
    strle a b = true := by
  unfold strlt at h
  unfold strle
  apply charListLe_total
  cases hc : charListLe b.data a.data with
  | true => rw [hc] at h; exact absurd h (by simp)
  | false => rfl

theorem strlt_false_of_strle (a b : String) (h : strle a b = true) :
    strlt b a = false := by
  unfold strle at h
  unfold strlt
  rw [h]
  rfl

theorem mem_insertDesc (r x : Row) (l : List Row) (h : x ∈ insertDesc r l) :
    x = r ∨ x ∈ l := by
  induction l with
  | nil => simp [insertDesc] at h; exact Or.inl h
  | cons y ys ih =>
    unfold insertDesc at h
    by_cases hlt : strlt r.created_at y.created_at = true
    · rw [if_pos hlt] at h
      rcases List.mem_cons.mp h with h1 | h1
      · exact Or.inr (List.mem_cons.mpr (Or.inl h1))
      · rcases ih h1 with h2 | h2
        · exact Or.inl h2
        · exact Or.inr (List.mem_cons.mpr (Or.inr h2))
    · rw [if_neg hlt] at h
      rcases List.mem_cons.mp h with h1 | h1
      · exact Or.inl h1
      · exact Or.inr h1

theorem insertDesc_mem (r x : Row) (l : List Row) (h : x = r ∨ x ∈ l) :
    x ∈ insertDesc r l := by
  induction l with
  | nil =>
    rcases h with h1 | h1
    · simp [insertDesc, h1]
    · simp at h1
  | cons y ys ih =>
    unfold insertDesc
    by_cases hlt : strlt r.created_at y.created_at = true
    · rw [if_pos hlt]
      rcases h with h1 | h1
      · exact List.mem_cons.mpr (Or.inr (ih (Or.inl h1)))
      · rcases List.mem_cons.mp h1 with h2 | h2
        · exact List.mem_cons.mpr (Or.inl h2)
        · exact List.mem_cons.mpr (Or.inr (ih (Or.inr h2)))
    · rw [if_neg hlt]
      rcases h with h1 | h1
      · exact List.mem_cons.mpr (Or.inl h1)
      · exact List.mem_cons.mpr (Or.inr h1)

theorem mem_sortDesc (x : Row) (l : List Row) : x ∈ sortDesc l ↔ x ∈ l := by
  induction l with
  | nil => simp [sortDesc]
  | cons y ys ih =>
    unfold sortDesc
    constructor
    · intro h
      rcases mem_insertDesc y x (sortDesc ys) h with h1 | h1
      · exact List.mem_cons.mpr (Or.inl h1)
      · exact List.mem_cons.mpr (Or.inr (ih.mp h1))
    · intro h
      rcases List.mem_cons.mp h with h1 | h1
      · exact insertDesc_mem y x (sortDesc ys) (Or.inl h1)
      · exact insertDesc_mem y x (sortDesc ys) (Or.inr (ih.mpr h1))

theorem sortedDescCheck_insert (r : Row) (l : List Row)
    (h : sortedDescCheck l = true) : sortedDescCheck (insertDesc r l) = true := by
  induction l with
  | nil => rfl
  | cons x xs ih =>
    unfold insertDesc
    by_cases hlt : strlt r.created_at x.created_at = true
    · rw [if_pos hlt]
      cases xs with
      | nil =>
        have : insertDesc r [] = [r] := rfl
        rw [this]
        unfold sortedDescCheck
        rw [strle_of_strlt r.created_at x.created_at hlt]
        rfl
      | cons y ys =>
        unfold sortedDescCheck at h
        have hxy : strle y.created_at x.created_at = true := by
          cases hc : strle y.created_at x.created_at with
          | true => rfl
          | false => rw [hc] at h; exact absurd h (by simp)
        have htail : sortedDescCheck (y :: ys) = true := by
          cases hc : sortedDescCheck (y :: ys) with
          | true => rfl
          | false => rw [hc] at h; exact absurd h (by simp)
        have hins := ih htail
        unfold insertDesc at hins ⊢
        by_cases hry : strlt r.created_at y.created_at = true
        · rw [if_pos hry] at hins ⊢
          unfold sortedDescCheck
          rw [hxy, hins]
          rfl
        · rw [if_neg hry] at hins ⊢
          unfold sortedDescCheck
          rw [strle_of_strlt r.created_at x.created_at hlt, hins]
          rfl
    · rw [if_neg hlt]
      unfold sortedDescCheck
      rw [strle_of_strlt_false r.created_at x.created_at (by
        cases hc : strlt r.created_at x.created_at with
        | true => exact absurd hc hlt
        | false => rfl), h]
      rfl

theorem sortedDescCheck_sortDesc (l : List Row) :
    sortedDescCheck (sortDesc l) = true := by
  induction l with
  | nil => rfl
  | cons x xs ih => exact sortedDescCheck_insert x (sortDesc xs) ih

theorem sortDesc_head (c : Row) (l : List Row)
    (h : ∀ x ∈ l, strle x.created_at c.created_at = true) :
    sortDesc (c :: l) = c :: sortDesc l := by
  show insertDesc c (sortDesc l) = c :: sortDesc l
  cases hs : sortDesc l with
  | nil => rfl
  | cons x xs =>
    have hx : x ∈ sortDesc l := by rw [hs]; exact List.mem_cons_self x xs
    have hxl : x ∈ l := (mem_sortDesc x l).mp hx
    unfold insertDesc
    rw [if_neg (by rw [strlt_false_of_strle x.created_at c.created_at (h x hxl)]; simp)]

/-! ## Formatter lemmas -/

theorem ofNat_digit_isDigit (m : Nat) :
    (Char.ofNat (48 + m % 10)).isDigit = true := by
  have h : m % 10 < 10 := Nat.mod_lt _ (by omega)
  set k := m % 10 with hk
  interval_cases k <;> decide

theorem ofNat_digit_beq_T (m : Nat) :
    ((Char.ofNat (48 + m % 10)) == 'T') = false := by
  have h : m % 10 < 10 := Nat.mod_lt _ (by omega)
  set k := m % 10 with hk
  interval_cases k <;> decide

theorem fmtCanonical_data (dt : DateTime) : (fmtCanonical dt).data =
    [Char.ofNat (48 + dt.year / 1000 % 10), Char.ofNat (48 + dt.year / 100 % 10),
     Char.ofNat (48 + dt.year / 10 % 10), Char.ofNat (48 + dt.year % 10), '.',
     Char.ofNat (48 + dt.month / 10 % 10), Char.ofNat (48 + dt.month % 10), '.',
     Char.ofNat (48 + dt.day / 10 % 10), Char.ofNat (48 + dt.day % 10), ' ',
     Char.ofNat (48 + dt.hour / 10 % 10), Char.ofNat (48 + dt.hour % 10), ':',
     Char.ofNat (48 + dt.minute / 10 % 10), Char.ofNat (48 + dt.minute % 10), ':',
     Char.ofNat (48 + dt.second / 10 % 10), Char.ofNat (48 + dt.second % 10)] := by
  simp [fmtCanonical, pad2, pad4, String.data_append]

theorem fmtCanonical_no_T (dt : DateTime) :
    (fmtCanonical dt).data.any (fun c => c == 'T') = false := by
  rw [fmtCanonical_data]
  simp only [List.any_cons, List.any_nil, ofNat_digit_beq_T]
  rfl

theorem canonicalShape_fmtCanonical (dt : DateTime) :
    canonicalShape (fmtCanonical dt) = true := by
  unfold canonicalShape
  rw [fmtCanonical_data]
  simp only [List.all_cons, List.all_nil, ofNat_digit_isDigit]
  rfl

theorem fmtCanonical_length (dt : DateTime) : (fmtCanonical dt).length = 19 := by
  show (fmtCanonical dt).data.length = 19
  rw [fmtCanonical_data]
  rfl

theorem format_fmtCanonical (dt : DateTime) :
    format_created_at (fmtCanonical dt) = fmtCanonical dt := by
  unfold format_created_at
  rw [if_neg (by rw [fmtCanonical_data]; simp)]
  rw [fmtCanonical_no_T]
  rfl

theorem format_idem (s : String) :
    format_created_at (format_created_at s) = format_created_at s := by
  by_cases h1 : s.data.isEmpty
  · have hs : format_created_at s = "" := by unfold format_created_at; rw [if_pos h1]
    rw [hs]
    rfl
  · by_cases h2 : s.data.any (fun c => c == 'T')
    · cases hp : parseIso (replaceZ s.data) with
      | none =>
        have hs : format_created_at s = s := by
          unfold format_created_at
          rw [if_neg h1, if_pos h2, hp]
        rw [hs, hs]
      | some dt =>
        have hs : format_created_at s = fmtCanonical dt := by
          unfold format_created_at
          rw [if_neg h1, if_pos h2, hp]
        rw [hs, format_fmtCanonical]
    · have hs : format_created_at s = s := by
        unfold format_created_at
        rw [if_neg h1, if_neg h2]
      rw [hs, hs]

/-! ## Collection-loop lemmas -/

theorem collect_mem (latest : Option PyVal) (fetch : List NewsItem) (x : Row)
    (h : x ∈ (collectNew latest fetch).1) : ∃ m ∈ fetch, x = toRow m := by
  induction fetch with
  | nil => simp [collectNew] at h
  | cons n rest ih =>
    unfold collectNew at h
    by_cases hs : stopAt latest n.id = true
    · rw [if_pos hs] at h
      simp at h
    · rw [if_neg hs] at h
      simp only [List.mem_cons] at h
      rcases h with h1 | h1
      · exact ⟨n, List.mem_cons_self n rest, h1⟩
      · rcases ih h1 with ⟨m, hm, hx⟩
        exact ⟨m, List.mem_cons.mpr (Or.inr hm), hx⟩

/-- Sample fetched item with an integer id and an empty title. -/
def sampleItem (i : Int) (created : String) : NewsItem :=
  ⟨.int i, "", "", created, "[]"⟩

/-- Sample dataset row with an integer id and an empty title. -/
def sampleRow (i : Int) (created : String) : Row :=
  ⟨.int i, "", "", created, "[]"⟩

/-- Claim C1, counterexample: with a falsy first-row id (here the integer 0)
the collection loop does not stop at the fetched item whose id equals it:
the item is collected as new and the boundary flag stays false, contrary to
the claim's unconditional stop. -/
theorem collect_stops_cx :
    collectNew (some (PyVal.int 0)) [sampleItem 0 "2024-01-02T10:00:00Z"] =
      ([sampleRow 0 "2024.01.02 10:00:00"], false) := by decide

/-- Claim C1 (amended with: the captured first-row id must be truthy): when
the prior first-row id L is truthy and the fetch contains an item with id L,
exactly the items strictly before the first occurrence of L are collected
(timestamps normalized), the boundary flag is set, and nothing at or after
the boundary is appended. -/
theorem stopAt_some (l i : PyVal) : stopAt (some l) i = (l.truthy && i == l) := rfl

theorem collect_stops_at_truthy_boundary (l : PyVal) (pre post : List NewsItem)
    (n : NewsItem) (htr : l.truthy = true) (hn : n.id = l)
    (hpre : ∀ m ∈ pre, m.id ≠ l) :
    collectNew (some l) (pre ++ n :: post) = (pre.map toRow, true) := by
  induction pre with
  | nil =>
    rw [List.nil_append]
    unfold collectNew
    rw [if_pos (by rw [stopAt_some, htr, hn]; simp)]
    rfl
  | cons m pre' ih =>
    have hm : m.id ≠ l := hpre m (List.mem_cons_self m pre')
    have ih' := ih (fun m' hm' => hpre m' (List.mem_cons.mpr (Or.inr hm')))
    rw [List.cons_append]
    unfold collectNew
    rw [if_neg (by rw [stopAt_some, htr]; simp [hm])]
    rw [ih']
    rfl

/-- Claim C1, witness: prior first id 5, fetch order 9, 8, 5, 3; the new
items are exactly the rows for 9 and 8 and the boundary is found. -/
theorem collect_stops_at_truthy_boundary_witness :
    collectNew (some (PyVal.int 5))
      [sampleItem 9 "2024-01-03T10:00:00Z", sampleItem 8 "2024-01-02T12:00:00Z",
       sampleItem 5 "2024-01-02T10:00:00Z", sampleItem 3 "2024-01-01T08:00:00Z"] =
      ([toRow (sampleItem 9 "2024-01-03T10:00:00Z"),
        toRow (sampleItem 8 "2024-01-02T12:00:00Z")], true) := by
  have h := collect_stops_at_truthy_boundary (PyVal.int 5)
    [sampleItem 9 "2024-01-03T10:00:00Z", sampleItem 8 "2024-01-02T12:00:00Z"]
    [sampleItem 3 "2024-01-01T08:00:00Z"]
    (sampleItem 5 "2024-01-02T10:00:00Z")
    (by decide) (by decide) (by decide)
  simpa using h

/-- Claim C10: when the captured latest id is falsy, the collection loop
never stops early: every fetched item is collected as new (timestamps
normalized) and the boundary flag stays false, even when an item's id equals
the captured id. -/
theorem collect_ignores_falsy_latest (l : PyVal) (fetch : List NewsItem)
    (h : l.truthy = false) :
    collectNew (some l) fetch = (fetch.map toRow, false) := by
  induction fetch with
  | nil => rfl
  | cons n rest ih =>
    unfold collectNew
    rw [if_neg (by rw [stopAt_some, h]; simp)]
    rw [ih]
    rfl

/-- Claim C10, witness: applied to the falsy ids 0 and the empty string; the
item duplicating the prior first row is itself collected. -/
theorem collect_ignores_falsy_latest_witness :
    collectNew (some (PyVal.int 0)) [sampleItem 0 "2024-01-05T10:00:00Z"] =
      ([toRow (sampleItem 0 "2024-01-05T10:00:00Z")], false) ∧
    collectNew (some (PyVal.str "")) [⟨PyVal.str "", "t", "c", "2024-01-05T10:00:00Z", "[]"⟩] =
      ([toRow ⟨PyVal.str "", "t", "c", "2024-01-05T10:00:00Z", "[]"⟩], false) := by
  refine ⟨?_, ?_⟩
  · have h := collect_ignores_falsy_latest (PyVal.int 0)
      [sampleItem 0 "2024-01-05T10:00:00Z"] (by decide)
    simpa using h
  · have h := collect_ignores_falsy_latest (PyVal.str "")
      [⟨PyVal.str "", "t", "c", "2024-01-05T10:00:00Z", "[]"⟩] (by decide)
    simpa using h

/-- Claim C2: the merge applies no de-duplication, and at this input (prior
rows with ids 5 and 9 newest-first, fetch 9, 8, 5, 3) the persisted dataset
contains the id 9 twice, violating the required no-duplicate invariant. -/
theorem merge_persists_duplicate_ids :
    ((update_save_db_xlsx
        (some [sampleRow 5 "2024.01.02 10:00:00", sampleRow 9 "2024.01.01 09:00:00"])
        [sampleItem 9 "2024-01-03T10:00:00Z", sampleItem 8 "2024-01-02T12:00:00Z",
         sampleItem 5 "2024-01-02T10:00:00Z", sampleItem 3 "2024-01-01T08:00:00Z"]).written.map
      noDupIds) = some false := by decide

theorem update_newRows (prior : Option (List Row)) (fetch : List NewsItem) :
    (update_save_db_xlsx prior fetch).newRows = (collectNew (latestOf prior) fetch).1 := by
  unfold update_save_db_xlsx
  by_cases h : (collectNew (latestOf prior) fetch).1.isEmpty <;> simp [h]

theorem update_found (prior : Option (List Row)) (fetch : List NewsItem) :
    (update_save_db_xlsx prior fetch).found = (collectNew (latestOf prior) fetch).2 := by
  unfold update_save_db_xlsx
  by_cases h : (collectNew (latestOf prior) fetch).1.isEmpty <;> simp [h]

theorem update_written (prior : Option (List Row)) (fetch : List NewsItem) :
    (update_save_db_xlsx prior fetch).written =
      if (collectNew (latestOf prior) fetch).1.isEmpty then none
      else some (sortDesc (migrateRows (combinedOf prior fetch))) := by
  unfold update_save_db_xlsx
  by_cases h : (collectNew (latestOf prior) fetch).1.isEmpty <;> simp [h]

theorem update_file (prior : Option (List Row)) (fetch : List NewsItem) :
    (update_save_db_xlsx prior fetch).file =
      if (collectNew (latestOf prior) fetch).1.isEmpty then prior
      else some (sortDesc (migrateRows (combinedOf prior fetch))) := by
  unfold update_save_db_xlsx
  by_cases h : (collectNew (latestOf prior) fetch).1.isEmpty <;> simp [h]

theorem update_outcome (prior : Option (List Row)) (fetch : List NewsItem) :
    (update_save_db_xlsx prior fetch).outcome =
      if (collectNew (latestOf prior) fetch).1.isEmpty then
        (if (collectNew (latestOf prior) fetch).2 then MergeOutcome.upToDate
         else MergeOutcome.noItems)
      else MergeOutcome.saved := by
  unfold update_save_db_xlsx
  by_cases h : (collectNew (latestOf prior) fetch).1.isEmpty <;> simp [h]

/-- Claim C5: every dataset written by the merge is sorted by the timestamp
column in non-increasing order. -/
theorem merge_written_sorted (prior : Option (List Row)) (fetch : List NewsItem)
    (rows : List Row)
    (hw : (update_save_db_xlsx prior fetch).written = some rows) :
    sortedDescCheck rows = true := by
  rw [update_written] at hw
  by_cases h : (collectNew (latestOf prior) fetch).1.isEmpty
  · rw [if_pos h] at hw
    exact absurd hw (by simp)
  · rw [if_neg h] at hw
    have : sortDesc (migrateRows (combinedOf prior fetch)) = rows :=
      Option.some.inj hw
    rw [← this]
    exact sortedDescCheck_sortDesc _

/-- Fetch list used by the sort-invariant witness. -/
def c5Fetch : List NewsItem :=
  [sampleItem 1 "2024-01-01T00:00:00Z", sampleItem 2 "2024-01-02T00:00:00Z"]

/-- The rows written by the merge on `c5Fetch` with no prior file. -/
def c5Out : List Row := sortDesc (migrateRows (combinedOf none c5Fetch))

/-- Claim C5, witness: a concrete written dataset is sorted descending. -/
theorem merge_written_sorted_witness : sortedDescCheck c5Out = true :=
  merge_written_sorted none c5Fetch c5Out (by decide)

/-- Claim C8: the classifier returns the upgrade verdict whenever an upgrade
keyword occurs (regardless of downgrade keywords), the downgrade verdict
when only a downgrade keyword occurs, and the neutral verdict otherwise. -/
theorem thinking_opinion_precedence (title : String) :
    (upHit title = true → thinking_opinion title = "상향") ∧
    (upHit title = false → downHit title = true → thinking_opinion title = "하향") ∧
    (upHit title = false → downHit title = false → thinking_opinion title = "중립") := by
  refine ⟨?_, ?_, ?_⟩
  · intro h
    unfold thinking_opinion
    rw [if_pos h]
  · intro h1 h2
    unfold thinking_opinion
    rw [if_neg (by simp [h1]), if_pos h2]
  · intro h1 h2
    unfold thinking_opinion
    rw [if_neg (by simp [h1]), if_neg (by simp [h2])]

/-- Claim C8, witness: a title with both an upgrade and a downgrade keyword
classifies as upgrade; one with only a downgrade keyword as downgrade; one
with neither as neutral. -/
theorem thinking_opinion_precedence_witness :
    thinking_opinion "AAPL 목표가 상향, MSFT 목표가 하향" = "상향" ∧
    thinking_opinion "AAPL 목표가 하향" = "하향" ∧
    thinking_opinion "오늘 시장 동정" = "중립" :=
  ⟨(thinking_opinion_precedence _).1 (by decide),
   (thinking_opinion_precedence _).2.1 (by decide) (by decide),
   (thinking_opinion_precedence _).2.2 (by decide) (by decide)⟩

/-! ## Linker theorems -/

theorem attachOpinion_first (row : Row) (pre post : List Ticker) (t : Ticker)
    (hpre : ∀ u ∈ pre, wordTokenMatch u.symbol row.title = false)
    (hmatch : wordTokenMatch t.symbol row.title = true) :
    attachOpinion row (pre ++ t :: post) =
      (pre ++ { t with opinions := t.opinions ++ [mkOpinion t.symbol row] } :: post, 1) := by
  induction pre with
  | nil =>
    rw [List.nil_append]
    unfold attachOpinion
    rw [if_pos hmatch]
    rfl
  | cons u pre' ih =>
    have hu : wordTokenMatch u.symbol row.title = false :=
      hpre u (List.mem_cons_self u pre')
    have ih' := ih (fun v hv => hpre v (List.mem_cons.mpr (Or.inr hv)))
    rw [List.cons_append]
    unfold attachOpinion
    rw [if_neg (by rw [hu]; simp)]
    rw [ih']
    rfl

/-- Claim C7: a news row whose title contains no opinion keyword is skipped
entirely (removing it from the input changes nothing); a surviving row whose
title word-matches several distinct tickers produces exactly one opinion,
appended to the first matching ticker in list order, and matching stops
there. -/
theorem linker_single_attribution (rows1 rows2 : List Row) (bad row : Row)
    (tickers pre post : List Ticker) (t : Ticker)
    (hbad : opinionKeywordHit bad.title = false)
    (hpass : opinionKeywordHit row.title = true)
    (hpre : ∀ u ∈ pre, wordTokenMatch u.symbol row.title = false)
    (hmatch : wordTokenMatch t.symbol row.title = true)
    (_hmore : ∃ u ∈ post, wordTokenMatch u.symbol row.title = true ∧ u.symbol ≠ t.symbol) :
    filter_opinion_news (rows1 ++ bad :: rows2) tickers =
      filter_opinion_news (rows1 ++ rows2) tickers ∧
    filter_opinion_news [row] (pre ++ t :: post) =
      ⟨pre ++ { t with opinions := t.opinions ++ [mkOpinion t.symbol row] } :: post,
       1, some [row]⟩ := by
  constructor
  · have hf : List.filter (fun r => opinionKeywordHit r.title) (rows1 ++ bad :: rows2)
        = List.filter (fun r => opinionKeywordHit r.title) (rows1 ++ rows2) := by
      simp [List.filter_append, List.filter_cons, hbad]
    unfold filter_opinion_news
    rw [hf]
  · unfold filter_opinion_news
    have hf : List.filter (fun r => opinionKeywordHit r.title) [row] = [row] := by
      simp [List.filter_cons, hpass]
    rw [hf]
    have ha := attachOpinion_first row pre post t hpre hmatch
    simp [List.foldl_cons, List.foldl_nil, ha]

/-- Ticker used by the linker witness (earlier in the list). -/
def c7A : Ticker := ⟨"AAPL", []⟩

/-- Ticker used by the linker witness (later in the list). -/
def c7M : Ticker := ⟨"MSFT", []⟩

/-- Surviving news row containing both ticker symbols as word tokens. -/
def c7Row : Row := ⟨.int 1, "투자의견: AAPL 및 MSFT Buy", "", "2024.01.02 10:00:00", "[]"⟩

/-- News row without any opinion keyword. -/
def c7Bad : Row := ⟨.int 2, "오늘 시장 동정", "", "2024.01.01 10:00:00", "[]"⟩

/-- Claim C7, witness: with the ticker list AAPL then MSFT and a title
containing both symbols, exactly one opinion is created and it is attached
to AAPL; the keyword-free row is skipped. -/
theorem linker_single_attribution_witness :
    filter_opinion_news [c7Bad] [c7A, c7M] = filter_opinion_news [] [c7A, c7M] ∧
    filter_opinion_news [c7Row] [c7A, c7M] =
      ⟨[⟨"AAPL", [mkOpinion "AAPL" c7Row]⟩, c7M], 1, some [c7Row]⟩ := by
  have h := linker_single_attribution [] [] c7Bad c7Row [c7A, c7M] [] [c7M] c7A
    (by decide) (by decide) (by decide) (by decide)
    ⟨c7M, by decide, by decide, by decide⟩
  simpa [c7A] using h

/-- Freshly filtered row used by the secondary-file counterexample. -/
def c9New : Row := ⟨.int 1, "투자의견 Buy", "", "2024.01.02 10:00:00", "[]"⟩

/-- Prior secondary-file row (distinct id, not superseded) used by the
secondary-file counterexample. -/
def c9Prior : Row := ⟨.int 2, "목표가 상향 JP모건", "", "2024.01.01 10:00:00", "[]"⟩

/-- Claim C9, counterexample: the write performed by `filter_opinion_news`
replaces the secondary file with exactly the newly filtered rows; it never
reads the prior file, so a prior row with a distinct id (here id 2) is
absent from the written contents, contrary to the claimed merge of every
write. -/
theorem secondary_write_cx :
    (filter_opinion_news [c9New] []).written = some [c9New] ∧
    c9Prior ∉ [c9New] := by decide

/-- Claim C9 (amended: no executed write merges): the secondary file
contents written by `filter_opinion_news` are exactly the dataset rows
whose title passes the opinion-keyword filter, independent of any prior
contents of the file; and `filter_bank_news` — the only function containing
merge-and-dedup logic for that file — raises a TypeError on entry (it calls
`get_bank` without the required keyword argument, outside its try block),
so it terminates without performing any write and leaves the secondary file
untouched. -/
theorem secondary_file_writes (db : List Row) (tickers : List Ticker)
    (saveF opF : Option (List Row)) :
    (∀ r : Row, r ∈ (filter_opinion_news db tickers).written.getD [] ↔
      r ∈ db ∧ opinionKeywordHit r.title = true) ∧
    (filter_bank_news saveF opF).outcome =
      Except.error "TypeError: get_bank missing 1 required positional argument" ∧
    (filter_bank_news saveF opF).opinionFile = opF := by
  refine ⟨?_, rfl, rfl⟩
  intro r
  have hgd : (filter_opinion_news db tickers).written.getD [] =
      db.filter (fun r => opinionKeywordHit r.title) := by
    unfold filter_opinion_news
    by_cases h : (db.filter (fun r => opinionKeywordHit r.title)).isEmpty
    · simp only [h, if_pos, Option.getD_none]
      exact (List.isEmpty_iff.mp h).symm
    · simp [h]
  rw [hgd]
  simp [List.mem_filter]

/-! ## Migration-gate theorems -/

/-- Prior dataset containing a legacy (ISO-format) timestamp row, used by
the migration counterexample. -/
def c4Prior : List Row :=
  [sampleRow 5 "2024.01.02 10:00:00", sampleRow 4 "2023-12-31T10:00:00Z"]

/-- Fetch list whose first item's normalized timestamp is canonical, used by
the migration counterexample. -/
def c4Fetch : List NewsItem :=
  [sampleItem 9 "2024-01-03T10:00:00Z", sampleItem 5 "2024-01-02T10:00:00Z"]

/-- Claim C4, counterexample: because the first combined row's timestamp is
already canonical, the migration pass is skipped entirely and the written
dataset still contains a row in the alternate (ISO) format, contrary to the
claim that every such row is normalized. -/
theorem migration_skips_legacy_cx :
    ((update_save_db_xlsx (some c4Prior) c4Fetch).written.map
      (fun rows => rows.any (fun r => !(canonCheck r.created_at)))) = some true := by
  decide

/-- Claim C4 (amended: the pass is gated on the first row only): whenever
the merge writes, if the first combined row's timestamp passes the canonical
test then every combined row — converted or not — is persisted unchanged,
and if it fails the test then every persisted row's timestamp is a fixed
point of `format_created_at` (every row was passed through the formatter). -/
theorem migration_first_row_gate (prior : Option (List Row)) (fetch : List NewsItem)
    (c : Row) (cs rows : List Row)
    (hc : combinedOf prior fetch = c :: cs)
    (hw : (update_save_db_xlsx prior fetch).written = some rows) :
    (canonCheck c.created_at = true → ∀ r ∈ c :: cs, r ∈ rows) ∧
    (canonCheck c.created_at = false →
      ∀ r ∈ rows, format_created_at r.created_at = r.created_at) := by
  rw [update_written] at hw
  by_cases he : (collectNew (latestOf prior) fetch).1.isEmpty
  · rw [if_pos he] at hw
    exact absurd hw (by simp)
  · rw [if_neg he] at hw
    have hrows : rows = sortDesc (migrateRows (combinedOf prior fetch)) :=
      (Option.some.inj hw).symm
    rw [hc] at hrows
    have hmig : migrateRows (c :: cs) =
        if canonCheck c.created_at then c :: cs
        else (c :: cs).map
          (fun r => { r with created_at := format_created_at r.created_at }) := rfl
    constructor
    · intro hcanon r hr
      rw [hrows, hmig, if_pos hcanon]
      exact (mem_sortDesc r _).mpr hr
    · intro hcanon r hr
      rw [hrows, hmig, if_neg (by simp [hcanon])] at hr
      have hr2 := (mem_sortDesc r _).mp hr
      rcases List.mem_map.mp hr2 with ⟨x, _, hxr⟩
      rw [← hxr]
      show format_created_at (format_created_at x.created_at) = format_created_at x.created_at
      exact format_idem x.created_at

/-- The rows written by the merge in the migration-gate scenario. -/
def c4Out : List Row := sortDesc (migrateRows (combinedOf (some c4Prior) c4Fetch))

/-- Claim C4, witness: at the concrete gate-skipping input, the legacy ISO
row is persisted unchanged into the written dataset. -/
theorem migration_first_row_gate_witness :
    sampleRow 4 "2023-12-31T10:00:00Z" ∈ c4Out := by
  have h := migration_first_row_gate (some c4Prior) c4Fetch
    (toRow (sampleItem 9 "2024-01-03T10:00:00Z")) c4Prior c4Out (by decide) (by decide)
  exact h.1 (by decide) _ (by decide)

/-! ## Idempotence of the merge -/

theorem collectNew_cons (latest : Option PyVal) (n : NewsItem) (rest : List NewsItem) :
    collectNew latest (n :: rest) =
      if stopAt latest n.id then ([], true)
      else (toRow n :: (collectNew latest rest).1, (collectNew latest rest).2) := rfl

theorem combineRows_head (prior : Option (List Row)) (nr : Row) (tl : List Row) :
    combineRows prior (nr :: tl) = nr :: tl ∨
    (∃ rows, prior = some rows ∧ combineRows prior (nr :: tl) = nr :: (tl ++ rows)) := by
  cases prior with
  | none => exact Or.inl rfl
  | some rows =>
    cases rows with
    | nil => exact Or.inl rfl
    | cons p ps =>
      by_cases hpt : p.id.truthy = true
      · refine Or.inr ⟨p :: ps, rfl, ?_⟩
        show (if p.id.truthy then (nr :: tl) ++ (p :: ps) else nr :: tl) = _
        rw [if_pos hpt]
        rfl
      · left
        show (if p.id.truthy then (nr :: tl) ++ (p :: ps) else nr :: tl) = _
        rw [if_neg hpt]

theorem run2_upToDate (file : Option (List Row)) (w : Row) (tail : List Row)
    (rest : List NewsItem) (n : NewsItem)
    (hfile : file = some (w :: tail)) (hw : w.id = n.id)
    (htr : n.id.truthy = true) :
    update_save_db_xlsx file (n :: rest) =
      ⟨[], true, MergeOutcome.upToDate, file, none⟩ := by
  have hc : collectNew (latestOf file) (n :: rest) = ([], true) := by
    rw [hfile]
    show collectNew (some w.id) (n :: rest) = ([], true)
    rw [collectNew_cons, if_pos (by rw [stopAt_some, hw]; simp [htr])]
  simp [update_save_db_xlsx, hc]

/-- Claim C3 (amended with: the first fetched item's id is truthy, the
fetch is strictly newest-first in the sense that the first item's
normalized timestamp is strictly greater than every other fetched item's,
and every prior row's timestamp — before and after normalization — is
strictly older than it): running the merge a second time with the same
fetch result against the file state produced by the first run collects
zero new items, detects the boundary on the first fetched item, reports
the up-to-date outcome and leaves the dataset file unchanged.  Strict
dominance makes the first written row the unique maximum, so the statement
does not depend on how the sort orders equal timestamps (pandas' default
quicksort is not stable). -/
theorem merge_idempotent (prior : Option (List Row)) (fetch rest : List NewsItem)
    (n : NewsItem)
    (hf : fetch = n :: rest)
    (htr : n.id.truthy = true)
    (hnewest : ∀ m ∈ rest,
      strlt (format_created_at m.created_at) (format_created_at n.created_at) = true)
    (hprior : ∀ rows, prior = some rows → ∀ r ∈ rows,
      strlt r.created_at (format_created_at n.created_at) = true ∧
      strlt (format_created_at r.created_at) (format_created_at n.created_at) = true) :
    (update_save_db_xlsx (update_save_db_xlsx prior fetch).file fetch).newRows = [] ∧
    (update_save_db_xlsx (update_save_db_xlsx prior fetch).file fetch).found = true ∧
    (update_save_db_xlsx (update_save_db_xlsx prior fetch).file fetch).outcome =
      MergeOutcome.upToDate ∧
    (update_save_db_xlsx (update_save_db_xlsx prior fetch).file fetch).file =
      (update_save_db_xlsx prior fetch).file := by
  subst hf
  have H : ∃ w tail2, (update_save_db_xlsx prior (n :: rest)).file = some (w :: tail2) ∧
      w.id = n.id := by
    by_cases hstop : stopAt (latestOf prior) n.id = true
    · have hc1 : collectNew (latestOf prior) (n :: rest) = ([], true) := by
        rw [collectNew_cons, if_pos hstop]
      have hfile : (update_save_db_xlsx prior (n :: rest)).file = prior := by
        rw [update_file, hc1]
        simp
      cases hp : prior with
      | none =>
        rw [hp] at hstop
        exact absurd hstop (by simp [latestOf, stopAt])
      | some rows =>
        cases hrows : rows with
        | nil =>
          rw [hp, hrows] at hstop
          exact absurd hstop (by simp [latestOf, stopAt])
        | cons p ps =>
          rw [hp, hrows] at hstop
          have hl : latestOf (some (p :: ps)) = some p.id := rfl
          rw [hl, stopAt_some] at hstop
          simp only [Bool.and_eq_true, beq_iff_eq] at hstop
          refine ⟨p, ps, ?_, hstop.2.symm⟩
          rw [← hrows, ← hp]
          exact hfile
    · have hc1 : collectNew (latestOf prior) (n :: rest) =
          (toRow n :: (collectNew (latestOf prior) rest).1,
           (collectNew (latestOf prior) rest).2) := by
        rw [collectNew_cons, if_neg hstop]
      have hne : (collectNew (latestOf prior) (n :: rest)).1.isEmpty = false := by
        rw [hc1]
        rfl
      have hfile : (update_save_db_xlsx prior (n :: rest)).file =
          some (sortDesc (migrateRows (combinedOf prior (n :: rest)))) := by
        rw [update_file, hne]
        simp
      have htail : ∀ x ∈ (collectNew (latestOf prior) rest).1,
          strlt x.created_at (format_created_at n.created_at) = true ∧
          strlt (format_created_at x.created_at) (format_created_at n.created_at) = true := by
        intro x hx
        rcases collect_mem _ _ x hx with ⟨m, hm, hxm⟩
        have hb : strlt (format_created_at m.created_at)
            (format_created_at n.created_at) = true :=
          hnewest m hm
        constructor
        · rw [hxm]
          exact hb
        · rw [hxm]
          show strlt (format_created_at (format_created_at m.created_at))
            (format_created_at n.created_at) = true
          rw [format_idem]
          exact hb
      have hCS : ∃ CS, combinedOf prior (n :: rest) = toRow n :: CS ∧
          ∀ x ∈ CS, strlt x.created_at (format_created_at n.created_at) = true ∧
            strlt (format_created_at x.created_at)
              (format_created_at n.created_at) = true := by
        have hcm : combinedOf prior (n :: rest) =
            combineRows prior (toRow n :: (collectNew (latestOf prior) rest).1) := by
          unfold combinedOf
          rw [hc1]
        rcases combineRows_head prior (toRow n) (collectNew (latestOf prior) rest).1 with
          hcb | ⟨rows, hpr, hcb⟩
        · exact ⟨(collectNew (latestOf prior) rest).1, by rw [hcm, hcb], htail⟩
        · refine ⟨(collectNew (latestOf prior) rest).1 ++ rows, by rw [hcm, hcb], ?_⟩
          intro x hx
          rcases List.mem_append.mp hx with h1 | h1
          · exact htail x h1
          · exact hprior rows hpr x h1
      rcases hCS with ⟨CS, hcomb, hbound⟩
      have hmig : ∃ CS2, migrateRows (toRow n :: CS) = toRow n :: CS2 ∧
          ∀ x ∈ CS2, strlt x.created_at (format_created_at n.created_at) = true := by
        have hmigeq : migrateRows (toRow n :: CS) =
            if canonCheck (toRow n).created_at then toRow n :: CS
            else (toRow n :: CS).map
              (fun r => { r with created_at := format_created_at r.created_at }) := rfl
        by_cases hcn : canonCheck (toRow n).created_at = true
        · exact ⟨CS, by rw [hmigeq, if_pos hcn], fun x hx => (hbound x hx).1⟩
        · refine ⟨CS.map (fun r => { r with created_at := format_created_at r.created_at }),
            ?_, ?_⟩
          · rw [hmigeq, if_neg hcn, List.map_cons]
            congr 1
            show { toRow n with created_at := format_created_at ((toRow n).created_at) }
              = toRow n
            have hcr : format_created_at ((toRow n).created_at) = (toRow n).created_at := by
              show format_created_at (format_created_at n.created_at)
                = format_created_at n.created_at
              exact format_idem n.created_at
            rw [hcr]
          · intro x hx
            rcases List.mem_map.mp hx with ⟨y, hy, hyx⟩
            rw [← hyx]
            show strlt (format_created_at y.created_at)
              (format_created_at n.created_at) = true
            exact (hbound y hy).2
      rcases hmig with ⟨CS2, hmig2, hb2⟩
      have hsort : sortDesc (toRow n :: CS2) = toRow n :: sortDesc CS2 := by
        apply sortDesc_head
        intro x hx
        show strle x.created_at (format_created_at n.created_at) = true
        exact strle_of_strlt _ _ (hb2 x hx)
      rw [hcomb, hmig2, hsort] at hfile
      exact ⟨toRow n, sortDesc CS2, hfile, rfl⟩
  rcases H with ⟨w, tail2, hfile, hw⟩
  have h2 := run2_upToDate ((update_save_db_xlsx prior (n :: rest)).file) w tail2 rest n
    hfile hw htr
  refine ⟨?_, ?_, ?_, ?_⟩ <;> rw [h2]

/-- Fetch with a falsy first id, for the idempotence counterexample. -/
def c3FetchA : List NewsItem := [sampleItem 0 "2024-01-02T10:00:00Z"]

/-- Fetch not ordered newest-first, for the idempotence counterexample. -/
def c3FetchB : List NewsItem :=
  [sampleItem 1 "2024-01-01T00:00:00Z", sampleItem 2 "2024-01-02T00:00:00Z"]

/-- Prior dataset newer than everything fetched, for the idempotence
counterexample. -/
def c3PriorC : List Row := [sampleRow 7 "2025.01.01 00:00:00"]

/-- Fetch older than the prior row, for the idempotence counterexample. -/
def c3FetchC : List NewsItem := [sampleItem 9 "2024-01-05T00:00:00Z"]

/-- Claim C3, counterexample: re-running the merge with the same fetch
against the file produced by the first run is not idempotent as claimed
when (a) the first fetched id is falsy, (b) the fetch is not newest-first,
or (c) the prior dataset is newer than everything fetched — in each case
the second run collects new items again instead of reporting up to date. -/
theorem merge_idempotent_cx :
    ((update_save_db_xlsx (update_save_db_xlsx none c3FetchA).file c3FetchA).newRows ≠ [] ∧
     (update_save_db_xlsx (update_save_db_xlsx none c3FetchA).file c3FetchA).outcome ≠
       MergeOutcome.upToDate) ∧
    ((update_save_db_xlsx (update_save_db_xlsx none c3FetchB).file c3FetchB).newRows ≠ [] ∧
     (update_save_db_xlsx (update_save_db_xlsx none c3FetchB).file c3FetchB).file ≠
       (update_save_db_xlsx none c3FetchB).file) ∧
    (update_save_db_xlsx (update_save_db_xlsx (some c3PriorC) c3FetchC).file c3FetchC).newRows
      ≠ [] := by decide

/-- Prior dataset of the idempotence witness. -/
def c3Prior : List Row := [sampleRow 3 "2024.01.01 00:00:00"]

/-- Fetch of the idempotence witness: two new items, strictly newest-first,
all strictly newer than the prior row, the first with a truthy id. -/
def c3Fetch : List NewsItem :=
  [sampleItem 5 "2024-01-02T10:00:00Z", sampleItem 4 "2024-01-01T10:00:00Z"]

/-- Claim C3, witness: after the first run writes the merged file, the
second run with the same fetch collects nothing, finds the boundary on the
first item, reports up to date and leaves the file unchanged. -/
theorem merge_idempotent_witness :
    (update_save_db_xlsx (update_save_db_xlsx (some c3Prior) c3Fetch).file c3Fetch).newRows
      = [] ∧
    (update_save_db_xlsx (update_save_db_xlsx (some c3Prior) c3Fetch).file c3Fetch).found
      = true ∧
    (update_save_db_xlsx (update_save_db_xlsx (some c3Prior) c3Fetch).file c3Fetch).outcome
      = MergeOutcome.upToDate ∧
    (update_save_db_xlsx (update_save_db_xlsx (some c3Prior) c3Fetch).file c3Fetch).file
      = (update_save_db_xlsx (some c3Prior) c3Fetch).file :=
  merge_idempotent (some c3Prior) c3Fetch [sampleItem 4 "2024-01-01T10:00:00Z"]
    (sampleItem 5 "2024-01-02T10:00:00Z")
    rfl (by decide) (by decide)
    (by
      intro rows hr
      injection hr with h2
      subst h2
      decide)

/-! ## The ISO timestamp round-trip -/

theorem digit_beq_Z (c : Char) (h : c.isDigit = true) : (c == 'Z') = false := by
  cases hb : c == 'Z' with
  | false => rfl
  | true => rw [eq_of_beq hb] at h; exact absurd h (by decide)

theorem replaceZ_cons_ne (c : Char) (l : List Char) (h : (c == 'Z') = false) :
    replaceZ (c :: l) = c :: replaceZ l := by
  have heq : replaceZ (c :: l) =
      if c == 'Z' then '+' :: '0' :: '0' :: ':' :: '0' :: '0' :: replaceZ l
      else c :: replaceZ l := rfl
  rw [heq, h]
  rfl

theorem parseIso_cons (y1 y2 y3 y4 mo1 mo2 d1 d2 hh1 hh2 mi1 mi2 se1 se2 : Char)
    (rest : List Char) :
    parseIso (y1 :: y2 :: y3 :: y4 :: '-' :: mo1 :: mo2 :: '-' :: d1 :: d2 :: 'T' ::
      hh1 :: hh2 :: ':' :: mi1 :: mi2 :: ':' :: se1 :: se2 :: rest) =
      if [y1, y2, y3, y4, mo1, mo2, d1, d2, hh1, hh2, mi1, mi2, se1, se2].all Char.isDigit
          && suffixOk rest then
        if rangesOk (compose4 y1 y2 y3 y4) (compose2 mo1 mo2) (compose2 d1 d2)
            (compose2 hh1 hh2) (compose2 mi1 mi2) (compose2 se1 se2) then
          some ⟨compose4 y1 y2 y3 y4, compose2 mo1 mo2, compose2 d1 d2,
                compose2 hh1 hh2, compose2 mi1 mi2, compose2 se1 se2⟩
        else none
      else none := rfl

theorem zTail_cases (l : List Char) (h : zTail l = true) :
    l = ['Z'] ∨ ∃ sg a b c d, l = [sg, a, b, ':', c, d] ∧ (sg = '+' ∨ sg = '-') ∧
      [a, b, c, d].all Char.isDigit = true ∧ compose2 a b ≤ 23 ∧ compose2 c d ≤ 59 := by
  unfold zTail at h
  split at h
  case _ => exact Or.inl rfl
  case _ sg a b c d =>
    simp only [Bool.and_eq_true, Bool.or_eq_true, beq_iff_eq, decide_eq_true_eq] at h
    obtain ⟨⟨⟨hsg, hdig⟩, hle1⟩, hle2⟩ := h
    exact Or.inr ⟨sg, a, b, c, d, rfl, hsg, hdig, hle1, hle2⟩
  case _ => exact absurd h (by simp)

theorem replaceZ_eq_self (l : List Char) (h : ∀ c ∈ l, (c == 'Z') = false) :
    replaceZ l = l := by
  induction l with
  | nil => rfl
  | cons c cs ih =>
    rw [replaceZ_cons_ne c cs (h c (List.mem_cons_self c cs))]
    rw [ih (fun c' hc' => h c' (List.mem_cons.mpr (Or.inr hc')))]

theorem offsetOk_of (sg a b c d : Char) (hsg : sg = '+' ∨ sg = '-')
    (hdig : [a, b, c, d].all Char.isDigit = true)
    (h1 : compose2 a b ≤ 23) (h2 : compose2 c d ≤ 59) :
    offsetOk [sg, a, b, ':', c, d] = true := by
  have he : offsetOk [sg, a, b, ':', c, d] =
      ((sg == '+' || sg == '-') && [a, b, c, d].all Char.isDigit &&
       compose2 a b ≤ 23 && compose2 c d ≤ 59) := rfl
  rw [he]
  rcases hsg with rfl | rfl <;> simp [hdig, h1, h2]

theorem offset_replace (sg a b c d : Char) (hsg : sg = '+' ∨ sg = '-')
    (hdig : [a, b, c, d].all Char.isDigit = true) :
    replaceZ [sg, a, b, ':', c, d] = [sg, a, b, ':', c, d] := by
  simp only [List.all_cons, List.all_nil, Bool.and_eq_true, and_true] at hdig
  obtain ⟨ha, hb, hc, hd⟩ := hdig
  apply replaceZ_eq_self
  intro c' hc'
  simp only [List.mem_cons, List.not_mem_nil, or_false] at hc'
  rcases hc' with rfl | rfl | rfl | rfl | rfl | rfl
  · rcases hsg with rfl | rfl <;> rfl
  · exact digit_beq_Z _ ha
  · exact digit_beq_Z _ hb
  · rfl
  · exact digit_beq_Z _ hc
  · exact digit_beq_Z _ hd

theorem zTail_offset (l : List Char) (h : zTail l = true) :
    offsetOk (replaceZ l) = true := by
  rcases zTail_cases l h with hz | ⟨sg, a, b, c, d, hshape, hsg, hdig, hle1, hle2⟩
  · rw [hz]
    decide
  · rw [hshape, offset_replace sg a b c d hsg hdig]
    exact offsetOk_of sg a b c d hsg hdig hle1 hle2

theorem suffixOk_dot (a b c : Char) (L : List Char) :
    suffixOk ('.' :: a :: b :: c :: L) =
      ([a, b, c].all Char.isDigit &&
        (match L with
         | d :: e :: f :: rest2 =>
           if [d, e, f].all Char.isDigit then offsetOk rest2 else offsetOk L
         | _ => offsetOk L)) := rfl

theorem zSuffix_suffixOk (rest : List Char) (h : zSuffix rest = true) :
    suffixOk (replaceZ rest) = true := by
  unfold zSuffix at h
  split at h
  case _ a b c rest1 =>
    simp only [Bool.and_eq_true] at h
    obtain ⟨habc, hinner⟩ := h
    have habc2 := habc
    simp only [List.all_cons, List.all_nil, Bool.and_eq_true, and_true] at habc2
    obtain ⟨ha, hb, hc⟩ := habc2
    have hra : replaceZ ('.' :: a :: b :: c :: rest1) =
        '.' :: a :: b :: c :: replaceZ rest1 := by
      rw [replaceZ_cons_ne _ _ (by decide), replaceZ_cons_ne _ _ (digit_beq_Z _ ha),
          replaceZ_cons_ne _ _ (digit_beq_Z _ hb), replaceZ_cons_ne _ _ (digit_beq_Z _ hc)]
    rw [hra, suffixOk_dot, habc, Bool.true_and]
    split at hinner
    case _ d e f rest2 =>
      by_cases hdef : [d, e, f].all Char.isDigit = true
      · rw [if_pos hdef] at hinner
        have hdef2 := hdef
        simp only [List.all_cons, List.all_nil, Bool.and_eq_true, and_true] at hdef2
        obtain ⟨hd, he, hf⟩ := hdef2
        have hr2 : replaceZ (d :: e :: f :: rest2) = d :: e :: f :: replaceZ rest2 := by
          rw [replaceZ_cons_ne _ _ (digit_beq_Z _ hd), replaceZ_cons_ne _ _ (digit_beq_Z _ he),
              replaceZ_cons_ne _ _ (digit_beq_Z _ hf)]
        rw [hr2]
        show (if [d, e, f].all Char.isDigit then offsetOk (replaceZ rest2)
              else offsetOk (d :: e :: f :: replaceZ rest2)) = true
        rw [if_pos hdef]
        exact zTail_offset rest2 hinner
      · rw [if_neg hdef] at hinner
        rcases zTail_cases _ hinner with hz | ⟨sg, a', b', c', d', hshape, hsg, hdig, hle1, hle2⟩
        · simp at hz
        · rw [hshape, offset_replace sg a' b' c' d' hsg hdig]
          show (if [sg, a', b'].all Char.isDigit then offsetOk [':', c', d']
                else offsetOk [sg, a', b', ':', c', d']) = true
          rw [if_neg (by rcases hsg with rfl | rfl <;> simp)]
          exact offsetOk_of sg a' b' c' d' hsg hdig hle1 hle2
    case _ hnot =>
      rcases zTail_cases _ hinner with hz | ⟨sg, a', b', c', d', hshape, hsg, hdig, hle1, hle2⟩
      · rw [hz]
        decide
      · exact absurd hshape (hnot sg a' b' [':', c', d'])
  case _ hnot1 =>
    rcases zTail_cases _ h with hz | ⟨sg, a, b, c, d, hshape, hsg, hdig, hle1, hle2⟩
    · rw [hz]
      decide
    · rw [hshape, offset_replace sg a b c d hsg hdig]
      rcases hsg with rfl | rfl
      · show offsetOk ['+', a, b, ':', c, d] = true
        exact offsetOk_of '+' a b c d (Or.inl rfl) hdig hle1 hle2
      · show offsetOk ['-', a, b, ':', c, d] = true
        exact offsetOk_of '-' a b c d (Or.inr rfl) hdig hle1 hle2

theorem format_iso_part1 (s : String) (h : isIso8601Z s = true) :
    canonicalShape (format_created_at s) = true ∧ (format_created_at s).length = 19 := by
  unfold isIso8601Z at h
  split at h
  case _ y1 y2 y3 y4 mo1 mo2 d1 d2 hh1 hh2 mi1 mi2 se1 se2 rest heq =>
    simp only [Bool.and_eq_true] at h
    obtain ⟨⟨hdig, hran⟩, hsuf⟩ := h
    have hdig2 := hdig
    simp only [List.all_cons, List.all_nil, Bool.and_eq_true, and_true] at hdig2
    obtain ⟨h1, h2, h3, h4, h5, h6, h7, h8, h9, h10, h11, h12, h13, h14⟩ := hdig2
    have hrepl : replaceZ s.data = y1 :: y2 :: y3 :: y4 :: '-' :: mo1 :: mo2 :: '-' ::
        d1 :: d2 :: 'T' :: hh1 :: hh2 :: ':' :: mi1 :: mi2 :: ':' :: se1 :: se2 ::
        replaceZ rest := by
      rw [heq]
      rw [replaceZ_cons_ne _ _ (digit_beq_Z _ h1), replaceZ_cons_ne _ _ (digit_beq_Z _ h2),
          replaceZ_cons_ne _ _ (digit_beq_Z _ h3), replaceZ_cons_ne _ _ (digit_beq_Z _ h4),
          replaceZ_cons_ne _ _ (by decide),
          replaceZ_cons_ne _ _ (digit_beq_Z _ h5), replaceZ_cons_ne _ _ (digit_beq_Z _ h6),
          replaceZ_cons_ne _ _ (by decide),
          replaceZ_cons_ne _ _ (digit_beq_Z _ h7), replaceZ_cons_ne _ _ (digit_beq_Z _ h8),
          replaceZ_cons_ne _ _ (by decide),
          replaceZ_cons_ne _ _ (digit_beq_Z _ h9), replaceZ_cons_ne _ _ (digit_beq_Z _ h10),
          replaceZ_cons_ne _ _ (by decide),
          replaceZ_cons_ne _ _ (digit_beq_Z _ h11), replaceZ_cons_ne _ _ (digit_beq_Z _ h12),
          replaceZ_cons_ne _ _ (by decide),
          replaceZ_cons_ne _ _ (digit_beq_Z _ h13), replaceZ_cons_ne _ _ (digit_beq_Z _ h14)]
    have hparse : parseIso (replaceZ s.data) =
        some ⟨compose4 y1 y2 y3 y4, compose2 mo1 mo2, compose2 d1 d2,
              compose2 hh1 hh2, compose2 mi1 mi2, compose2 se1 se2⟩ := by
      rw [hrepl, parseIso_cons]
      rw [if_pos (by rw [hdig, zSuffix_suffixOk rest hsuf]; rfl)]
      rw [if_pos hran]
    have hne : s.data.isEmpty = false := by rw [heq]; rfl
    have hT : s.data.any (fun c => c == 'T') = true := by rw [heq]; simp
    have hfmt : format_created_at s =
        fmtCanonical ⟨compose4 y1 y2 y3 y4, compose2 mo1 mo2, compose2 d1 d2,
                      compose2 hh1 hh2, compose2 mi1 mi2, compose2 se1 se2⟩ := by
      unfold format_created_at
      rw [hne, hT, hparse]
      simp
    rw [hfmt]
    exact ⟨canonicalShape_fmtCanonical _, fmtCanonical_length _⟩
  case _ => exact absurd h (by simp)

theorem digit_beq_T (c : Char) (h : c.isDigit = true) : (c == 'T') = false := by
  cases hb : c == 'T' with
  | false => rfl
  | true => rw [eq_of_beq hb] at h; exact absurd h (by decide)

theorem format_canonical_fixed (s : String) (h : canonicalShape s = true) :
    format_created_at s = s := by
  unfold canonicalShape at h
  split at h
  case _ y1 y2 y3 y4 p1 mo1 mo2 p2 d1 d2 sp hh1 hh2 c1 mi1 mi2 c2 se1 se2 heq =>
    simp only [Bool.and_eq_true, beq_iff_eq] at h
    obtain ⟨⟨⟨⟨⟨hdig, hp1⟩, hp2⟩, hsp⟩, hc1⟩, hc2⟩ := h
    simp only [List.all_cons, List.all_nil, Bool.and_eq_true, and_true] at hdig
    obtain ⟨hd1, hd2, hd3, hd4, hd5, hd6, hd7, hd8, hd9, hd10, hd11, hd12, hd13, hd14⟩ := hdig
    subst hp1; subst hp2; subst hsp; subst hc1; subst hc2
    have hT : s.data.any (fun c => c == 'T') = false := by
      rw [heq]
      simp only [List.any_cons, List.any_nil, Bool.or_eq_false_iff]
      refine ⟨digit_beq_T _ hd1, digit_beq_T _ hd2, digit_beq_T _ hd3, digit_beq_T _ hd4,
        rfl, digit_beq_T _ hd5, digit_beq_T _ hd6, rfl, digit_beq_T _ hd7, digit_beq_T _ hd8,
        rfl, digit_beq_T _ hd9, digit_beq_T _ hd10, rfl, digit_beq_T _ hd11,
        digit_beq_T _ hd12, rfl, digit_beq_T _ hd13, digit_beq_T _ hd14, trivial⟩
    have hne : s.data.isEmpty = false := by rw [heq]; rfl
    unfold format_created_at
    rw [hne, hT]
    simp
  case _ => exact absurd h (by simp)

/-- Claim C6: formatting a valid ISO-8601 timestamp with a T separator and a
Z or numeric offset suffix always yields a 19-character string of the
canonical year.month.day hour:minute:second shape, and the formatter leaves
an already-canonical string unchanged (it is idempotent on its own output
domain). -/
theorem format_created_at_iso (s : String) :
    (isIso8601Z s = true →
      canonicalShape (format_created_at s) = true ∧ (format_created_at s).length = 19) ∧
    (canonicalShape s = true → format_created_at s = s) :=
  ⟨format_iso_part1 s, format_canonical_fixed s⟩

/-- Claim C6, witness: a concrete Zulu timestamp formats to the canonical
19-character shape, and a concrete canonical string is returned unchanged. -/
theorem format_created_at_iso_witness :
    (canonicalShape (format_created_at "2024-01-02T10:30:00Z") = true ∧
     (format_created_at "2024-01-02T10:30:00Z").length = 19) ∧
    format_created_at "2024.01.02 10:30:00" = "2024.01.02 10:30:00" :=
  ⟨(format_created_at_iso "2024-01-02T10:30:00Z").1 (by decide),
   (format_created_at_iso "2024.01.02 10:30:00").2 (by decide)⟩
